import Mathlib

/-!
Verification of the OCR extraction core of the PDF-to-PDF-Form repository
(`backend/services/ocr_engine.py`), shallowly embedded in Lean 4.

Pixel coordinates are Python ints, embedded as `Int`.  Confidences and the
IoU ratio are Python floats produced by exact divisions of small integers;
they are embedded as `ℚ` so that arithmetic is exact and decidable.
The three recognition engines themselves are external libraries; each
adapter's post-processing of the engine's raw output is embedded as a
function of that raw output, and the surrounding try/except is embedded by
feeding the adapter an `Except` value: `.error` is the engine raising.
-/

namespace OCR

/-- An axis-aligned box `(x, y, width, height)` in integer pixel units. -/
abbrev Box := Int × Int × Int × Int

/-- `OCRResult` dataclass: one detected text region. -/
structure OCRResult where
  text : String
  bbox : Box
  confidence : ℚ
  engine : String
deriving DecidableEq, Repr

/-- `Field` dataclass: a detected form field. -/
structure Field where
  name : String
  bbox : Box
  field_type : String
  value : String
  confidence : ℚ
deriving DecidableEq, Repr

/-- `ExtractionResult` dataclass: the final structured result.  The
`confidence_scores` dict is embedded as an association list built by the
same literal the source builds. -/
structure ExtractionResult where
  text_blocks : List OCRResult
  fields : List Field
  confidence_scores : List (String × ℚ)
  processing_time : ℚ
deriving DecidableEq, Repr

/-- The `OCRType` enum. -/
inductive OCRType where
  | tesseract
  | easyocr
  | paddleocr
deriving DecidableEq, Repr

/-- `OCRType.value`: the string tag of each engine. -/
def OCRType.value : OCRType → String
  | .tesseract => "tesseract"
  | .easyocr => "easyocr"
  | .paddleocr => "paddleocr"

/-! ### String helpers: Python's `in` substring test -/

/-- Whether `pat` occurs at the head of `hay` (character lists). -/
def listStartsWith : List Char → List Char → Bool
  | _, [] => true
  | [], _ :: _ => false
  | a :: as, b :: bs => a == b && listStartsWith as bs

/-- Whether `pat` occurs contiguously anywhere in `hay`: Python's
`pat in hay` on strings, character-list form. -/
def listHasSeq : List Char → List Char → Bool
  | [], pat => listStartsWith [] pat
  | h :: t, pat => listStartsWith (h :: t) pat || listHasSeq t pat

/-- Python's `pat in hay` substring containment on strings. -/
def strHasSub (hay pat : String) : Bool :=
  listHasSeq hay.toList pat.toList

/-- Python's `any(keyword in text for keyword in keywords)`. -/
def kwAny (text : String) (keywords : List String) : Bool :=
  keywords.any (fun k => strHasSub text k)

/-! ### `_boxes_overlap` and the IoU it computes -/

/-- The rectangle-intersection guard of `_boxes_overlap`:
`left < right and top < bottom` for the computed intersection rectangle. -/
def rectsIntersect (box1 box2 : Box) : Bool :=
  let (x1, y1, w1, h1) := box1
  let (x2, y2, w2, h2) := box2
  decide (max x1 x2 < min (x1 + w1) (x2 + w2)) &&
    decide (max y1 y2 < min (y1 + h1) (y2 + h2))

/-- `OCREngine._boxes_overlap(box1, box2, threshold)`: true when the two
boxes intersect, their union area is positive, and the
intersection-over-union ratio reaches the threshold. -/
def boxesOverlapT (box1 box2 : Box) (threshold : ℚ) : Bool :=
  let (x1, y1, w1, h1) := box1
  let (x2, y2, w2, h2) := box2
  let left := max x1 x2
  let top := max y1 y2
  let right := min (x1 + w1) (x2 + w2)
  let bottom := min (y1 + h1) (y2 + h2)
  if left < right ∧ top < bottom then
    let intersection_area : Int := (right - left) * (bottom - top)
    let union_area : Int := w1 * h1 + w2 * h2 - intersection_area
    if 0 < union_area then
      decide (threshold ≤ (intersection_area : ℚ) / (union_area : ℚ))
    else false
  else false

/-- `_boxes_overlap` at its default threshold 0.5, the form the
Ensemble Combiner calls. -/
def boxesOverlap (box1 box2 : Box) : Bool :=
  boxesOverlapT box1 box2 (1 / 2)

/-- The intersection-over-union value `_boxes_overlap` compares against its
threshold: intersection area over (area₁ + area₂ − intersection area),
and 0 when the boxes have no rectangle intersection or a nonpositive
union area. -/
def iou (box1 box2 : Box) : ℚ :=
  let (x1, y1, w1, h1) := box1
  let (x2, y2, w2, h2) := box2
  let left := max x1 x2
  let top := max y1 y2
  let right := min (x1 + w1) (x2 + w2)
  let bottom := min (y1 + h1) (y2 + h2)
  if left < right ∧ top < bottom then
    let intersection_area : Int := (right - left) * (bottom - top)
    let union_area : Int := w1 * h1 + w2 * h2 - intersection_area
    if 0 < union_area then (intersection_area : ℚ) / (union_area : ℚ)
    else 0
  else 0

/-! ### Recognizer adapters -/

/-- One row of the `pytesseract.image_to_data` dictionary: the fields the
Tesseract adapter reads, with `conf` already through Python's `int(...)`. -/
structure TessRow where
  conf : Int
  text : String
  left : Int
  top : Int
  width : Int
  height : Int
deriving DecidableEq, Repr

/-- A four-point polygon as returned by the EasyOCR / PaddleOCR engines. -/
structure Quad where
  p1 : Int × Int
  p2 : Int × Int
  p3 : Int × Int
  p4 : Int × Int
deriving DecidableEq, Repr

/-- One EasyOCR detection tuple `(bbox, text, confidence)`. -/
structure EasyDetection where
  bbox : Quad
  text : String
  confidence : ℚ
deriving DecidableEq, Repr

/-- One PaddleOCR detection `[bbox, (text, confidence)]`. -/
structure PaddleDetection where
  bbox : Quad
  text : String
  confidence : ℚ
deriving DecidableEq, Repr

/-- `TesseractEngine.process_image` after the engine call: keep rows with
`int(conf) > 0` whose stripped text is non-empty, emitting the stripped
text, the row's box, and `conf / 100`.  `.error` is the engine raising:
the except-branch logs and returns `[]`. -/
def tesseract_process_image (input : Except String (List TessRow)) :
    List OCRResult :=
  match input with
  | .error _ => []
  | .ok rows =>
    rows.filterMap (fun row =>
      if 0 < row.conf then
        if row.text.trim ≠ "" then
          some { text := row.text.trim,
                 bbox := (row.left, row.top, row.width, row.height),
                 confidence := (row.conf : ℚ) / 100,
                 engine := OCRType.tesseract.value }
        else none
      else none)

/-- The smallest x-coordinate of a quad's four points. -/
def Quad.minX (q : Quad) : Int := min (min q.p1.1 q.p2.1) (min q.p3.1 q.p4.1)

/-- The largest x-coordinate of a quad's four points. -/
def Quad.maxX (q : Quad) : Int := max (max q.p1.1 q.p2.1) (max q.p3.1 q.p4.1)

/-- The smallest y-coordinate of a quad's four points. -/
def Quad.minY (q : Quad) : Int := min (min q.p1.2 q.p2.2) (min q.p3.2 q.p4.2)

/-- The largest y-coordinate of a quad's four points. -/
def Quad.maxY (q : Quad) : Int := max (max q.p1.2 q.p2.2) (max q.p3.2 q.p4.2)

/-- `EasyOCREngine.process_image` after the engine call: every detection is
kept, its quad collapsed to `(x, y, w, h)` by min/max of the coordinates,
and its confidence clamped from above at 1.0.  `.error` is the engine
raising: the except-branch logs and returns `[]`. -/
def easyocr_process_image (input : Except String (List EasyDetection)) :
    List OCRResult :=
  match input with
  | .error _ => []
  | .ok results =>
    results.map (fun d =>
      let x := d.bbox.minX
      let y := d.bbox.minY
      let w := d.bbox.maxX - x
      let h := d.bbox.maxY - y
      { text := d.text,
        bbox := (x, y, w, h),
        confidence := min d.confidence 1,
        engine := OCRType.easyocr.value })

/-- `PaddleOCREngine.process_image` after the engine call.  The engine
returns `result` with `result[0]` the page's detections; `none` embeds a
falsy `result` or `result[0]` (the `if result and result[0]` guard), which
yields `[]`.  Every detection is kept, its quad collapsed to
`(x, y, w, h)`, its confidence clamped from above at 1.0.  `.error` is the
engine raising: the except-branch logs and returns `[]`. -/
def paddleocr_process_image
    (input : Except String (Option (List PaddleDetection))) :
    List OCRResult :=
  match input with
  | .error _ => []
  | .ok none => []
  | .ok (some dets) =>
    dets.map (fun d =>
      let x := d.bbox.minX
      let y := d.bbox.minY
      let w := d.bbox.maxX - x
      let h := d.bbox.maxY - y
      { text := d.text,
        bbox := (x, y, w, h),
        confidence := min d.confidence 1,
        engine := OCRType.paddleocr.value })

/-! ### Field detector -/

/-- The body of the `_detect_form_fields` loop for one block: the cascading
`if`/`elif` keyword ladder on the block's lower-cased stripped text,
producing at most one `Field` carrying the block's bbox and confidence with
an empty value. -/
def detect_field (block : OCRResult) : Option Field :=
  let text_lower := block.text.toLower.trim
  if kwAny text_lower ["name", "first name", "last name", "surname"] then
    some { name := "name", bbox := block.bbox, field_type := "text",
           value := "", confidence := block.confidence }
  else if kwAny text_lower ["email", "e-mail", "mail"] then
    some { name := "email", bbox := block.bbox, field_type := "text",
           value := "", confidence := block.confidence }
  else if kwAny text_lower ["phone", "tel", "mobile", "cell"] then
    some { name := "phone", bbox := block.bbox, field_type := "text",
           value := "", confidence := block.confidence }
  else if kwAny text_lower ["date", "dob", "birth"] then
    some { name := "date", bbox := block.bbox, field_type := "text",
           value := "", confidence := block.confidence }
  else if kwAny text_lower
      ["address", "street", "city", "state", "zip", "postal"] then
    some { name := "address", bbox := block.bbox, field_type := "text",
           value := "", confidence := block.confidence }
  else if kwAny text_lower ["account", "iban", "number"] then
    some { name := "account_number", bbox := block.bbox, field_type := "text",
           value := "", confidence := block.confidence }
  else none

/-- `OCREngine._detect_form_fields`: apply the keyword ladder to every
block in order, appending the at-most-one field each block produces. -/
def detect_form_fields (text_blocks : List OCRResult) : List Field :=
  text_blocks.filterMap detect_field

/-- The ordered rule ladder of the Field Detector, as the spec presents it:
`(label, keyword set)` pairs evaluated top to bottom. -/
def fieldLadder : List (String × List String) :=
  [("name", ["name", "first name", "last name", "surname"]),
   ("email", ["email", "e-mail", "mail"]),
   ("phone", ["phone", "tel", "mobile", "cell"]),
   ("date", ["date", "dob", "birth"]),
   ("address", ["address", "street", "city", "state", "zip", "postal"]),
   ("account_number", ["account", "iban", "number"])]

/-- Classification per the spec's words: the label of the first ladder rule
whose keyword set has a substring match against the text. -/
def ladderClassify (text : String) : Option String :=
  (fieldLadder.find? (fun rule => kwAny text rule.2)).map (fun rule => rule.1)

/-! ### Confidence scorer -/

/-- Python `sum` over a list of rationals. -/
def qsum (l : List ℚ) : ℚ := l.foldl (· + ·) 0

/-- Python `min` over a list of rationals; 0 on the empty list, which the
scorer guards against reaching. -/
def qmin : List ℚ → ℚ
  | [] => 0
  | x :: xs => xs.foldl min x

/-- Python `max` over a list of rationals; 0 on the empty list, which the
scorer guards against reaching. -/
def qmax : List ℚ → ℚ
  | [] => 0
  | x :: xs => xs.foldl max x

/-- `OCREngine._calculate_confidence_scores`: for an empty block list the
four zero statistics (and no `total_blocks` entry); otherwise the mean,
the same mean again, min, max, and `total_blocks` = the block count.
The `fields` argument is accepted and unused, as in the source. -/
def calculate_confidence_scores (text_blocks : List OCRResult)
    (fields : List Field) : List (String × ℚ) :=
  if text_blocks.isEmpty then
    [("overall", 0), ("average_per_block", 0), ("min", 0), ("max", 0)]
  else
    let confidences := text_blocks.map (fun block => block.confidence)
    [("overall",
      if confidences.isEmpty then 0
      else qsum confidences / (confidences.length : ℚ)),
     ("average_per_block",
      if confidences.isEmpty then 0
      else qsum confidences / (confidences.length : ℚ)),
     ("min", if confidences.isEmpty then 0 else qmin confidences),
     ("max", if confidences.isEmpty then 0 else qmax confidences),
     ("total_blocks", (text_blocks.length : ℚ))]

/-! ### Ensemble combiner -/

/-- Python's `max(overlapping, key=lambda r: r.confidence)` seeded with the
first element: a later element replaces the current best only when its
confidence is strictly greater, so the first-encountered maximum wins. -/
def maxByConfidence (r : OCRResult) (rs : List OCRResult) : OCRResult :=
  rs.foldl (fun best x => if best.confidence < x.confidence then x else best) r

/-- The inner loop of `_combine_ocr_results`: iterate
`enumerate(all_results[i+1:], i+1)` — here the suffix `rest` paired with its
first absolute index `j` — skipping already-processed indices, and collect
(claiming their indices) the entries whose box overlaps the seed's box at
the default threshold.  Returns the collected entries in scan order
together with the updated processed set. -/
def scanOverlaps (seed : OCRResult) : List OCRResult → Nat → List Nat →
    List OCRResult × List Nat
  | [], _, processed => ([], processed)
  | other :: rest, j, processed =>
    if j ∈ processed then
      scanOverlaps seed rest (j + 1) processed
    else if boxesOverlap seed.bbox other.bbox then
      let scanned := scanOverlaps seed rest (j + 1) (j :: processed)
      (other :: scanned.1, scanned.2)
    else
      scanOverlaps seed rest (j + 1) processed

/-- The outer loop of `_combine_ocr_results`: iterate
`enumerate(all_results)` — the suffix paired with its first absolute index
`i` — and each unprocessed index seeds a cluster `result :: scanned` over
the remaining suffix; the cluster contributes its sole member when it is a
singleton, otherwise its highest-confidence member. -/
def combineFrom : List OCRResult → Nat → List Nat → List OCRResult
  | [], _, _ => []
  | result :: rest, i, processed =>
    if i ∈ processed then
      combineFrom rest (i + 1) processed
    else
      let scanned := scanOverlaps result rest (i + 1) (i :: processed)
      let overlapping := result :: scanned.1
      let best :=
        if overlapping.length == 1 then result
        else maxByConfidence result scanned.1
      best :: combineFrom rest (i + 1) scanned.2

/-- `OCREngine._combine_ocr_results`: concatenate the three engines'
results and run the greedy left-to-right clustering pass. -/
def combine_ocr_results (tesseract_results easyocr_results
    paddleocr_results : List OCRResult) : List OCRResult :=
  combineFrom (tesseract_results ++ easyocr_results ++ paddleocr_results) 0 []

/-- The clusters the greedy pass of `_combine_ocr_results` forms, before
each is collapsed to its representative: same recursion, same processed-set
updates, but keeping the whole `result :: scanned` group. -/
def clustersFrom : List OCRResult → Nat → List Nat → List (List OCRResult)
  | [], _, _ => []
  | result :: rest, i, processed =>
    if i ∈ processed then
      clustersFrom rest (i + 1) processed
    else
      let scanned := scanOverlaps result rest (i + 1) (i :: processed)
      (result :: scanned.1) :: clustersFrom rest (i + 1) scanned.2

/-- The clusters of one combiner invocation. -/
def clustersOf (tesseract_results easyocr_results
    paddleocr_results : List OCRResult) : List (List OCRResult) :=
  clustersFrom (tesseract_results ++ easyocr_results ++ paddleocr_results) 0 []

/-- The representative a finalized cluster collapses to: its sole member
when it is a singleton, otherwise its first highest-confidence member
(the value never matters for the empty list, which no cluster is). -/
def representative : List OCRResult → OCRResult
  | [] => { text := "", bbox := (0, 0, 0, 0), confidence := 0, engine := "" }
  | r :: rs =>
    if (r :: rs).length == 1 then r else maxByConfidence r rs

/-! ### The pipeline: `OCREngine.process_document` -/

deriving instance DecidableEq for Except

/-- The three raw engine outcomes for one page: what each engine call
inside the adapters produced, `.error` embedding a raised exception. -/
structure PageRaw where
  tess : Except String (List TessRow)
  easy : Except String (List EasyDetection)
  paddle : Except String (Option (List PaddleDetection))
deriving DecidableEq, Repr

/-- `OCREngine.process_document` downstream of image loading and
preprocessing: for every page run the three adapters on that page's raw
engine outcomes, combine them, concatenate the per-page combined blocks,
detect fields over all blocks, and score.  `elapsed` is the measured wall
time the source records. -/
def process_document (pages : List PageRaw) (elapsed : ℚ) :
    ExtractionResult :=
  let all_text_blocks :=
    (pages.map (fun pg =>
      combine_ocr_results
        (tesseract_process_image pg.tess)
        (easyocr_process_image pg.easy)
        (paddleocr_process_image pg.paddle))).flatten
  let fields := detect_form_fields all_text_blocks
  let confidence_scores := calculate_confidence_scores all_text_blocks fields
  { text_blocks := all_text_blocks,
    fields := fields,
    confidence_scores := confidence_scores,
    processing_time := elapsed }

/-! ### Theorems -/

/-- Claim C7: for every adapter, when the underlying recognition engine
raises (embedded as an `.error` outcome), the adapter does not propagate
the exception and returns the empty list of regions. -/
theorem adapters_swallow_engine_errors :
    ∀ msg : String,
      tesseract_process_image (.error msg) = [] ∧
      easyocr_process_image (.error msg) = [] ∧
      paddleocr_process_image (.error msg) = [] :=
  fun _ => ⟨rfl, rfl, rfl⟩

/-- Claim C8: on an empty block list the Confidence Scorer returns exactly
the four zero statistics, and the resulting mapping has no `total_blocks`
key. -/
theorem scorer_empty_input :
    ∀ fields : List Field,
      calculate_confidence_scores [] fields =
        [("overall", 0), ("average_per_block", 0), ("min", 0), ("max", 0)] ∧
      List.lookup "total_blocks" (calculate_confidence_scores [] fields) =
        none := by
  intro fields
  exact ⟨rfl, rfl⟩

/-- Claim C9: the Ensemble Combiner, Field Detector and Confidence Scorer
are deterministic: equal inputs (same regions in the same order) give equal
outputs.  The embedding is a pure function of the inputs — there is no
randomness or clock in any of the three transforms. -/
theorem pipeline_deterministic :
    ∀ (t₁ e₁ p₁ t₂ e₂ p₂ blocks₁ blocks₂ : List OCRResult)
      (f₁ f₂ : List Field),
      t₁ = t₂ → e₁ = e₂ → p₁ = p₂ → blocks₁ = blocks₂ → f₁ = f₂ →
      combine_ocr_results t₁ e₁ p₁ = combine_ocr_results t₂ e₂ p₂ ∧
      detect_form_fields blocks₁ = detect_form_fields blocks₂ ∧
      calculate_confidence_scores blocks₁ f₁ =
        calculate_confidence_scores blocks₂ f₂ := by
  intro t₁ e₁ p₁ t₂ e₂ p₂ blocks₁ blocks₂ f₁ f₂ ht he hp hb hf
  subst ht; subst he; subst hp; subst hb; subst hf
  exact ⟨rfl, rfl, rfl⟩

/-- Witness for C9 at concrete inputs. -/
theorem pipeline_deterministic_witness :
    combine_ocr_results [] [] [] = combine_ocr_results [] [] [] ∧
    detect_form_fields [] = detect_form_fields [] ∧
    calculate_confidence_scores [] [] = calculate_confidence_scores [] [] :=
  pipeline_deterministic [] [] [] [] [] [] [] [] [] [] rfl rfl rfl rfl rfl

/-- Counterexample to claim C2: the EasyOCR adapter keeps a detection whose
text is a single space, so its output contains a region whose text is
whitespace-only. -/
theorem easyocr_keeps_whitespace_text :
    easyocr_process_image (.ok
      [{ bbox := { p1 := (0, 0), p2 := (10, 0), p3 := (10, 5), p4 := (0, 5) },
         text := " ", confidence := 9 / 10 }]) =
      [{ text := " ", bbox := (0, 0, 10, 5), confidence := 9 / 10,
         engine := "easyocr" }] ∧
    String.trim " " = "" := by
  constructor
  · with_unfolding_all decide
  · with_unfolding_all decide

/-- Claim C2 as amended: only the Tesseract adapter discards detections
whose text is empty after trimming (its every output region has non-empty
text, the trim of some positive-confidence raw row's text); the EasyOCR
and PaddleOCR adapters emit every detection's text verbatim, including
whitespace-only text. -/
theorem adapter_text_filtering :
    (∀ (rows : List TessRow) (r : OCRResult),
        r ∈ tesseract_process_image (.ok rows) →
        r.text ≠ "" ∧ ∃ row ∈ rows, 0 < row.conf ∧ r.text = row.text.trim) ∧
    (∀ dets : List EasyDetection,
        (easyocr_process_image (.ok dets)).map OCRResult.text =
          dets.map EasyDetection.text) ∧
    (∀ dets : List PaddleDetection,
        (paddleocr_process_image (.ok (some dets))).map OCRResult.text =
          dets.map PaddleDetection.text) := by
  refine ⟨?_, ?_, ?_⟩
  · intro rows r hr
    simp only [tesseract_process_image, List.mem_filterMap] at hr
    obtain ⟨row, hrow, hmk⟩ := hr
    by_cases hc : 0 < row.conf
    · rw [if_pos hc] at hmk
      by_cases ht : row.text.trim ≠ ""
      · rw [if_pos ht] at hmk
        injection hmk with hmk
        subst hmk
        exact ⟨ht, row, hrow, hc, rfl⟩
      · rw [if_neg ht] at hmk
        exact absurd hmk (Option.noConfusion)
    · rw [if_neg hc] at hmk
      exact absurd hmk (Option.noConfusion)
  · intro dets
    simp only [easyocr_process_image, List.map_map]
    rfl
  · intro dets
    simp only [paddleocr_process_image, List.map_map]
    rfl

/-- Witness for the amended C2 at a concrete Tesseract row. -/
theorem adapter_text_filtering_witness :
    ({ text := "Name", bbox := (0, 0, 50, 10), confidence := 9 / 10,
       engine := "tesseract" } : OCRResult).text ≠ "" ∧
    ∃ row ∈ [({ conf := 90, text := " Name ", left := 0, top := 0,
                width := 50, height := 10 } : TessRow)],
      0 < row.conf ∧
      ({ text := "Name", bbox := (0, 0, 50, 10), confidence := 9 / 10,
         engine := "tesseract" } : OCRResult).text = row.text.trim :=
  adapter_text_filtering.1
    [{ conf := 90, text := " Name ", left := 0, top := 0,
       width := 50, height := 10 }]
    { text := "Name", bbox := (0, 0, 50, 10), confidence := 9 / 10,
      engine := "tesseract" }
    (by with_unfolding_all decide)

/-- The cascading `if`/`elif` ladder of `detect_field` agrees, rule for
rule, with first-match lookup in the ordered rule table. -/
lemma detect_field_eq_ladder (b : OCRResult) :
    detect_field b =
      (ladderClassify (b.text.toLower.trim)).map (fun nm =>
        { name := nm, bbox := b.bbox, field_type := "text", value := "",
          confidence := b.confidence }) := by
  cases h1 : kwAny (b.text.toLower.trim)
      ["name", "first name", "last name", "surname"] <;>
    cases h2 : kwAny (b.text.toLower.trim) ["email", "e-mail", "mail"] <;>
      cases h3 : kwAny (b.text.toLower.trim) ["phone", "tel", "mobile", "cell"] <;>
        cases h4 : kwAny (b.text.toLower.trim) ["date", "dob", "birth"] <;>
          cases h5 : kwAny (b.text.toLower.trim)
              ["address", "street", "city", "state", "zip", "postal"] <;>
            cases h6 : kwAny (b.text.toLower.trim)
                ["account", "iban", "number"] <;>
              simp [detect_field, ladderClassify, fieldLadder,
                h1, h2, h3, h4, h5, h6]

/-- Claim C3: the Field Detector is first-match lookup in the fixed ordered
keyword ladder — each region yields at most one candidate, named by the
first matching rule, carrying the region's bbox and confidence with an
empty value, and yields none when no rule matches; and the text
`"account email number"` classifies as `email`, never `account_number`. -/
theorem field_detector_ladder :
    (∀ blocks : List OCRResult,
        detect_form_fields blocks = blocks.filterMap (fun b =>
          (ladderClassify (b.text.toLower.trim)).map (fun nm =>
            { name := nm, bbox := b.bbox, field_type := "text", value := "",
              confidence := b.confidence }))) ∧
    (∀ (bbox : Box) (conf : ℚ) (eng : String),
        detect_form_fields
          [{ text := "account email number", bbox := bbox,
             confidence := conf, engine := eng }] =
          [{ name := "email", bbox := bbox, field_type := "text",
             value := "", confidence := conf }]) := by
  constructor
  · intro blocks
    unfold detect_form_fields
    congr 1
    exact funext detect_field_eq_ladder
  · intro bbox conf eng
    have h := detect_field_eq_ladder
      { text := "account email number", bbox := bbox,
        confidence := conf, engine := eng }
    have hl : ladderClassify ("account email number".toLower.trim) =
        some "email" := by with_unfolding_all decide
    simp only [detect_form_fields, List.filterMap_cons, List.filterMap_nil,
      h, hl, Option.map_some]
    rfl

/-- Claim C6: `_boxes_overlap` is symmetric at every threshold; a box with
positive width and height has IoU 1 with itself, so `_boxes_overlap` at the
default threshold 0.5 accepts it; and two boxes with no rectangle
intersection have IoU 0, so `_boxes_overlap` rejects them. -/
theorem boxes_overlap_iou_props :
    (∀ (box1 box2 : Box) (threshold : ℚ),
        boxesOverlapT box1 box2 threshold = boxesOverlapT box2 box1 threshold) ∧
    (∀ x y w h : Int, 0 < w → 0 < h →
        iou (x, y, w, h) (x, y, w, h) = 1 ∧
        boxesOverlap (x, y, w, h) (x, y, w, h) = true) ∧
    (∀ box1 box2 : Box, rectsIntersect box1 box2 = false →
        iou box1 box2 = 0 ∧ boxesOverlap box1 box2 = false) := by
  refine ⟨?_, ?_, ?_⟩
  · intro b1 b2 th
    obtain ⟨x1, y1, w1, h1⟩ := b1
    obtain ⟨x2, y2, w2, h2⟩ := b2
    simp only [boxesOverlapT]
    rw [max_comm x2 x1, max_comm y2 y1, min_comm (x2 + w2) (x1 + w1),
      min_comm (y2 + h2) (y1 + h1),
      show w2 * h2 + w1 * h1 = w1 * h1 + w2 * h2 from by ring]
  · intro x y w h hw hh
    have hxw : x < x + w := by omega
    have hyh : y < y + h := by omega
    have harea : (0 : Int) < w * h := mul_pos hw hh
    have hsub : x + w - x = w := by ring
    have hsub2 : y + h - y = h := by ring
    have hu : w * h + w * h - w * h = w * h := by ring
    constructor
    · simp only [iou, max_self, min_self]
      rw [if_pos ⟨hxw, hyh⟩, hsub, hsub2, hu, if_pos harea]
      exact div_self (by exact_mod_cast harea.ne')
    · simp only [boxesOverlap, boxesOverlapT, max_self, min_self]
      rw [if_pos ⟨hxw, hyh⟩, hsub, hsub2, hu, if_pos harea,
        div_self (by exact_mod_cast harea.ne' : ((w * h : Int) : ℚ) ≠ 0)]
      norm_num
  · intro b1 b2 hni
    obtain ⟨x1, y1, w1, h1⟩ := b1
    obtain ⟨x2, y2, w2, h2⟩ := b2
    simp only [rectsIntersect, Bool.and_eq_false_iff,
      decide_eq_false_iff_not] at hni
    have hn : ¬(max x1 x2 < min (x1 + w1) (x2 + w2) ∧
        max y1 y2 < min (y1 + h1) (y2 + h2)) := not_and_or.mpr hni
    constructor
    · simp only [iou]
      rw [if_neg hn]
    · simp only [boxesOverlap, boxesOverlapT]
      rw [if_neg hn]

/-- Witness for C6 at concrete boxes: the self-IoU of a 10×10 box at the
origin, and the disjoint pair (0,0,1,1), (5,5,1,1). -/
theorem boxes_overlap_iou_props_witness :
    iou (0, 0, 10, 10) (0, 0, 10, 10) = 1 ∧
    boxesOverlap (0, 0, 10, 10) (0, 0, 10, 10) = true ∧
    iou (0, 0, 1, 1) (5, 5, 1, 1) = 0 ∧
    boxesOverlap (0, 0, 1, 1) (5, 5, 1, 1) = false :=
  ⟨(boxes_overlap_iou_props.2.1 0 0 10 10 (by decide) (by decide)).1,
   (boxes_overlap_iou_props.2.1 0 0 10 10 (by decide) (by decide)).2,
   (boxes_overlap_iou_props.2.2 (0, 0, 1, 1) (5, 5, 1, 1) (by decide)).1,
   (boxes_overlap_iou_props.2.2 (0, 0, 1, 1) (5, 5, 1, 1) (by decide)).2⟩

/-- Peeling one element off the scanned list of a Python-style max. -/
lemma maxByConf_cons (r x : OCRResult) (xs : List OCRResult) :
    maxByConfidence r (x :: xs) =
      maxByConfidence (if r.confidence < x.confidence then x else r) xs := rfl

/-- The Python-style max of a non-empty list is a member of the list. -/
lemma maxByConf_mem (r : OCRResult) (rs : List OCRResult) :
    maxByConfidence r rs ∈ r :: rs := by
  induction rs generalizing r with
  | nil => simp [maxByConfidence]
  | cons x xs ih =>
    rw [maxByConf_cons]
    have h2 := ih (if r.confidence < x.confidence then x else r)
    rcases List.mem_cons.mp h2 with h1 | h1
    · rw [h1]
      by_cases hc : r.confidence < x.confidence <;> simp [hc]
    · exact List.mem_cons_of_mem _ (List.mem_cons_of_mem _ h1)

/-- The Python-style max dominates every element of the scanned list. -/
lemma maxByConf_ge (r : OCRResult) (rs : List OCRResult) :
    ∀ y ∈ r :: rs, y.confidence ≤ (maxByConfidence r rs).confidence := by
  induction rs generalizing r with
  | nil =>
    intro y hy
    rcases List.mem_singleton.mp hy with h
    subst h
    simp [maxByConfidence]
  | cons x xs ih =>
    intro y hy
    rw [maxByConf_cons]
    have hseed :
        r.confidence ≤
          (if r.confidence < x.confidence then x else r).confidence ∧
        x.confidence ≤
          (if r.confidence < x.confidence then x else r).confidence := by
      by_cases hc : r.confidence < x.confidence <;>
        simp [hc, le_of_lt, le_of_not_lt]
    have htop := ih (if r.confidence < x.confidence then x else r) _
      (List.mem_cons_self _ _)
    rcases List.mem_cons.mp hy with h1 | h1
    · subst h1
      exact le_trans hseed.1 htop
    · rcases List.mem_cons.mp h1 with h2 | h2
      · subst h2
        exact le_trans hseed.2 htop
      · exact ih _ y (List.mem_cons_of_mem _ h2)

/-- The Python-style max is the first element of the list attaining the
maximal confidence: a linear search for its confidence finds it. -/
lemma maxByConf_first (r : OCRResult) (rs : List OCRResult) :
    (r :: rs).find?
        (fun y => decide (y.confidence = (maxByConfidence r rs).confidence)) =
      some (maxByConfidence r rs) := by
  induction rs generalizing r with
  | nil => simp [maxByConfidence]
  | cons x xs ih =>
    by_cases hrx : r.confidence < x.confidence
    · have hM : maxByConfidence r (x :: xs) = maxByConfidence x xs := by
        rw [maxByConf_cons, if_pos hrx]
      rw [hM]
      have hxM : x.confidence ≤ (maxByConfidence x xs).confidence :=
        maxByConf_ge x xs x (List.mem_cons_self _ _)
      have hrM : ¬ r.confidence = (maxByConfidence x xs).confidence :=
        ne_of_lt (lt_of_lt_of_le hrx hxM)
      rw [List.find?_cons_of_neg _ (by simp [hrM])]
      exact ih x
    · have hM : maxByConfidence r (x :: xs) = maxByConfidence r xs := by
        rw [maxByConf_cons, if_neg hrx]
      rw [hM]
      have hrM2 : r.confidence ≤ (maxByConfidence r xs).confidence :=
        maxByConf_ge r xs r (List.mem_cons_self _ _)
      by_cases hrM : r.confidence = (maxByConfidence r xs).confidence
      · have h1 := ih r
        rw [List.find?_cons_of_pos _ (by simp [hrM])] at h1
        injection h1 with h1
        rw [List.find?_cons_of_pos _ (by simp [hrM])]
        exact congrArg some h1
      · have h1 := ih r
        rw [List.find?_cons_of_neg _ (by simp [hrM])] at h1
        have hxr : x.confidence ≤ r.confidence := le_of_not_lt hrx
        have hxM : ¬ x.confidence = (maxByConfidence r xs).confidence := by
          intro he
          exact hrM (le_antisymm hrM2 (he ▸ hxr))
        rw [List.find?_cons_of_neg _ (by simp [hrM]),
          List.find?_cons_of_neg _ (by simp [hxM])]
        exact h1

/-- On a non-empty cluster the representative is the Python-style max of
head and tail (the singleton branch agrees with it). -/
lemma representative_cons (r : OCRResult) (rs : List OCRResult) :
    representative (r :: rs) = maxByConfidence r rs := by
  rcases rs with _ | ⟨y, ys⟩
  · simp [representative, maxByConfidence]
  · have hlen : ((r :: y :: ys).length == 1) = false := by
      simp only [List.length_cons, beq_eq_false_iff_ne, ne_eq]
      omega
    simp [representative, hlen]

/-- Everything the inner scan collects comes from the scanned suffix. -/
lemma scanOverlaps_fst_subset (seed : OCRResult) (rest : List OCRResult) :
    ∀ (j : Nat) (processed : List Nat) (r : OCRResult),
      r ∈ (scanOverlaps seed rest j processed).1 → r ∈ rest := by
  induction rest with
  | nil =>
    intro j processed r hr
    simp [scanOverlaps] at hr
  | cons other tl ih =>
    intro j processed r hr
    simp only [scanOverlaps] at hr
    by_cases hp : j ∈ processed
    · rw [if_pos hp] at hr
      exact List.mem_cons_of_mem _ (ih _ _ r hr)
    · rw [if_neg hp] at hr
      by_cases ho : boxesOverlap seed.bbox other.bbox
      · rw [if_pos ho] at hr
        rcases List.mem_cons.mp hr with h1 | h1
        · subst h1
          exact List.mem_cons_self _ _
        · exact List.mem_cons_of_mem _ (ih _ _ r h1)
      · rw [if_neg ho] at hr
        exact List.mem_cons_of_mem _ (ih _ _ r hr)

/-- The outer combiner loop is the cluster loop with each cluster collapsed
to its representative. -/
lemma combineFrom_eq_map (l : List OCRResult) :
    ∀ (i : Nat) (processed : List Nat),
      combineFrom l i processed =
        (clustersFrom l i processed).map representative := by
  induction l with
  | nil => intro i processed; rfl
  | cons result rest ih =>
    intro i processed
    simp only [combineFrom, clustersFrom]
    by_cases hp : i ∈ processed
    · rw [if_pos hp, if_pos hp]
      exact ih _ _
    · rw [if_neg hp, if_neg hp, List.map_cons]
      congr 1
      exact ih _ _

/-- The greedy pass forms at most as many clusters as it has inputs. -/
lemma clustersFrom_length_le (l : List OCRResult) :
    ∀ (i : Nat) (processed : List Nat),
      (clustersFrom l i processed).length ≤ l.length := by
  induction l with
  | nil => intro i processed; simp [clustersFrom]
  | cons result rest ih =>
    intro i processed
    simp only [clustersFrom, List.length_cons]
    by_cases hp : i ∈ processed
    · rw [if_pos hp]
      exact le_trans (ih _ _) (Nat.le_succ _)
    · rw [if_neg hp]
      simp only [List.length_cons]
      exact Nat.succ_le_succ (ih _ _)

/-- Every member of every cluster comes from the input list. -/
lemma clustersFrom_members (l : List OCRResult) :
    ∀ (i : Nat) (processed : List Nat) (c : List OCRResult),
      c ∈ clustersFrom l i processed → ∀ r ∈ c, r ∈ l := by
  induction l with
  | nil =>
    intro i processed c hc
    simp [clustersFrom] at hc
  | cons result rest ih =>
    intro i processed c hc r hr
    simp only [clustersFrom] at hc
    by_cases hp : i ∈ processed
    · rw [if_pos hp] at hc
      exact List.mem_cons_of_mem _ (ih _ _ c hc r hr)
    · rw [if_neg hp] at hc
      rcases List.mem_cons.mp hc with h1 | h1
      · subst h1
        rcases List.mem_cons.mp hr with h2 | h2
        · subst h2
          exact List.mem_cons_self _ _
        · exact List.mem_cons_of_mem _ (scanOverlaps_fst_subset _ _ _ _ r h2)
      · exact List.mem_cons_of_mem _ (ih _ _ c h1 r hr)

/-- No cluster the greedy pass forms is empty: each one is seeded. -/
lemma clustersFrom_ne_nil (l : List OCRResult) :
    ∀ (i : Nat) (processed : List Nat) (c : List OCRResult),
      c ∈ clustersFrom l i processed → c ≠ [] := by
  induction l with
  | nil =>
    intro i processed c hc
    simp [clustersFrom] at hc
  | cons result rest ih =>
    intro i processed c hc
    simp only [clustersFrom] at hc
    by_cases hp : i ∈ processed
    · rw [if_pos hp] at hc
      exact ih _ _ c hc
    · rw [if_neg hp] at hc
      rcases List.mem_cons.mp hc with h1 | h1
      · subst h1
        simp
      · exact ih _ _ c h1

/-- Claim C4: the combiner emits, for every cluster of its greedy pass,
exactly the cluster's highest-confidence member, ties resolved to the
first-encountered member (a linear search for the representative's
confidence finds the representative itself), and the representative's
confidence dominates every member's confidence. -/
theorem combiner_representative_max :
    ∀ t e p : List OCRResult,
      combine_ocr_results t e p = (clustersOf t e p).map representative ∧
      ∀ c ∈ clustersOf t e p,
        representative c ∈ c ∧
        (∀ y ∈ c, y.confidence ≤ (representative c).confidence) ∧
        c.find?
            (fun y => decide (y.confidence = (representative c).confidence)) =
          some (representative c) := by
  intro t e p
  refine ⟨combineFrom_eq_map _ 0 [], ?_⟩
  intro c hc
  have hne := clustersFrom_ne_nil _ 0 [] c hc
  rcases c with _ | ⟨r, rs⟩
  · exact absurd rfl hne
  · rw [representative_cons]
    exact ⟨maxByConf_mem r rs, maxByConf_ge r rs, maxByConf_first r rs⟩

/-- Witness for C4: a two-member cluster with tied confidences keeps its
first member. -/
theorem combiner_representative_max_witness :
    representative
        [{ text := "A", bbox := (0, 0, 10, 10), confidence := 1 / 2,
           engine := "tesseract" },
         { text := "B", bbox := (0, 0, 10, 10), confidence := 1 / 2,
           engine := "easyocr" }] ∈
      [{ text := "A", bbox := (0, 0, 10, 10), confidence := 1 / 2,
         engine := "tesseract" },
       { text := "B", bbox := (0, 0, 10, 10), confidence := 1 / 2,
         engine := "easyocr" }] ∧
    ({ text := "B", bbox := (0, 0, 10, 10), confidence := 1 / 2,
       engine := "easyocr" } : OCRResult).confidence ≤
      (representative
        [{ text := "A", bbox := (0, 0, 10, 10), confidence := 1 / 2,
           engine := "tesseract" },
         { text := "B", bbox := (0, 0, 10, 10), confidence := 1 / 2,
           engine := "easyocr" }]).confidence :=
  ⟨((combiner_representative_max
      [{ text := "A", bbox := (0, 0, 10, 10), confidence := 1 / 2,
         engine := "tesseract" },
       { text := "B", bbox := (0, 0, 10, 10), confidence := 1 / 2,
         engine := "easyocr" }] [] []).2 _
      (by with_unfolding_all decide)).1,
   ((combiner_representative_max
      [{ text := "A", bbox := (0, 0, 10, 10), confidence := 1 / 2,
         engine := "tesseract" },
       { text := "B", bbox := (0, 0, 10, 10), confidence := 1 / 2,
         engine := "easyocr" }] [] []).2 _
      (by with_unfolding_all decide)).2.1 _
      (by with_unfolding_all decide)⟩

/-- Claim C5: the combiner returns exactly one region per cluster of the
single greedy left-to-right pass, and never more regions than it was
given. -/
theorem combiner_output_count :
    ∀ t e p : List OCRResult,
      (combine_ocr_results t e p).length = (clustersOf t e p).length ∧
      (combine_ocr_results t e p).length ≤ (t ++ e ++ p).length := by
  intro t e p
  have h1 : combine_ocr_results t e p = (clustersOf t e p).map representative :=
    combineFrom_eq_map _ 0 []
  constructor
  · rw [h1, List.length_map]
  · rw [h1, List.length_map]
    exact clustersFrom_length_le _ 0 []

/-- Claim C10: every combiner output region is (field for field) one of the
concatenated input regions: the combiner never builds a new region, also
under confidence ties. -/
theorem combiner_output_subset :
    ∀ (t e p : List OCRResult) (r : OCRResult),
      r ∈ combine_ocr_results t e p → r ∈ t ++ e ++ p := by
  intro t e p r hr
  have h1 : combine_ocr_results t e p = (clustersOf t e p).map representative :=
    combineFrom_eq_map _ 0 []
  rw [h1] at hr
  obtain ⟨c, hc, hrep⟩ := List.mem_map.mp hr
  have hne := clustersFrom_ne_nil _ 0 [] c hc
  rcases c with _ | ⟨x, xs⟩
  · exact absurd rfl hne
  · have hmem : representative (x :: xs) ∈ x :: xs := by
      rw [representative_cons]
      exact maxByConf_mem x xs
    exact clustersFrom_members _ 0 [] _ hc _ (hrep ▸ hmem)

/-- Witness for C10 at a one-region input. -/
theorem combiner_output_subset_witness :
    ({ text := "A", bbox := (0, 0, 10, 10), confidence := 1 / 2,
       engine := "tesseract" } : OCRResult) ∈
      ([{ text := "A", bbox := (0, 0, 10, 10), confidence := 1 / 2,
          engine := "tesseract" }] ++ [] ++ []) :=
  combiner_output_subset
    [{ text := "A", bbox := (0, 0, 10, 10), confidence := 1 / 2,
       engine := "tesseract" }] [] []
    { text := "A", bbox := (0, 0, 10, 10), confidence := 1 / 2,
      engine := "tesseract" }
    (by with_unfolding_all decide)

/-- What the scorer's mapping says under the key `total_blocks`: present
with the block count exactly when the block list is non-empty. -/
lemma lookup_total_blocks (blocks : List OCRResult) (fields : List Field) :
    (blocks ≠ [] →
      List.lookup "total_blocks"
          (calculate_confidence_scores blocks fields) =
        some ((blocks.length : ℚ))) ∧
    (blocks = [] →
      List.lookup "total_blocks"
          (calculate_confidence_scores blocks fields) = none) := by
  constructor
  · intro hne
    rcases blocks with _ | ⟨b, bs⟩
    · exact absurd rfl hne
    · rfl
  · intro h
    subst h
    rfl

/-- Counterexample to claim C1: on the empty page sequence the pipeline
returns empty `text_blocks`, and the `confidence_scores` mapping has no
`total_blocks` key at all, so it cannot equal the length 0. -/
theorem process_document_total_blocks_cex :
    (process_document [] 0).text_blocks = [] ∧
    List.lookup "total_blocks" (process_document [] 0).confidence_scores =
      none :=
  ⟨rfl, rfl⟩

/-- Claim C1 as amended: for every pipeline run, `confidence_scores` maps
`total_blocks` to the length of `text_blocks` whenever `text_blocks` is
non-empty; when `text_blocks` is empty the key is absent. -/
theorem process_document_total_blocks :
    ∀ (pages : List PageRaw) (elapsed : ℚ),
      ((process_document pages elapsed).text_blocks ≠ [] →
        List.lookup "total_blocks"
            (process_document pages elapsed).confidence_scores =
          some (((process_document pages elapsed).text_blocks.length : ℚ))) ∧
      ((process_document pages elapsed).text_blocks = [] →
        List.lookup "total_blocks"
            (process_document pages elapsed).confidence_scores = none) := by
  intro pages elapsed
  exact lookup_total_blocks (process_document pages elapsed).text_blocks
    (detect_form_fields (process_document pages elapsed).text_blocks)

/-- Witness for the amended C1: one page whose Tesseract call produced one
confident row while the other two engines raised. -/
theorem process_document_total_blocks_witness :
    List.lookup "total_blocks"
        (process_document
          [{ tess := .ok [{ conf := 90, text := " Name ", left := 0,
                            top := 0, width := 50, height := 10 }],
             easy := .error "engine crash",
             paddle := .error "engine crash" }] 0).confidence_scores =
      some (((process_document
          [{ tess := .ok [{ conf := 90, text := " Name ", left := 0,
                            top := 0, width := 50, height := 10 }],
             easy := .error "engine crash",
             paddle := .error "engine crash" }] 0).text_blocks.length : ℚ)) :=
  (process_document_total_blocks
    [{ tess := .ok [{ conf := 90, text := " Name ", left := 0,
                      top := 0, width := 50, height := 10 }],
       easy := .error "engine crash",
       paddle := .error "engine crash" }] 0).1
    (by with_unfolding_all decide)

end OCR
